import Mathlib

/-!
Verification of the backup file service
(vs/workbench/services/backup/node/backupFileService.ts): a shallow embedding of
the in-memory backup index (BackupFilesModel), the backup coordinator
(BackupFileService) and the metadata codec. Asynchronous I/O outcomes (write,
delete, directory scan, bounded metadata read) are passed in explicitly; the
per-key queue's pass-through of failures and the external collaborators that are
not part of the source tree are modelled from the specification where noted.
-/

namespace VSBackup

/-- Model of the resource identifier (vs Uri): a scheme and a filesystem path.
Modelled from the spec: the resource identifier type (vs/base/common/uri is not
under src/) exposes a scheme, a path and a string form. -/
structure MUri where
  scheme : String
  fsPath : String
deriving DecidableEq, Repr

/-- Uri.file: a resource with the file scheme. -/
def MUri.file (p : String) : MUri := ⟨"file", p⟩

/-- Uri.toString: the string form of the resource, scheme followed by the path. -/
def MUri.toText (u : MUri) : String := u.scheme ++ "://" ++ u.fsPath

/-- Uri.parse: recover a resource from its string form (inverse of toText on
well-formed forms). Modelled from the spec: parse-from-string and to-string
round trip; exposes scheme and path. -/
def MUri.parse (s : String) : MUri :=
  let sc := s.data.takeWhile (fun c => c != ':')
  ⟨String.mk sc, String.mk (s.data.drop (sc.length + 3))⟩

/-- Split a character list at every occurrence of the marker character, the way
a text buffer is split into lines at the line ending. -/
def splitOnChar (m : Char) : List Char → List (List Char)
  | [] => [[]]
  | c :: cs =>
    if c = m then [] :: splitOnChar m cs
    else
      match splitOnChar m cs with
      | [] => [[c]]
      | l :: ls => (c :: l) :: ls

/-- Join character lists with the marker character between them (Array.join). -/
def joinChar (m : Char) : List (List Char) → List Char
  | [] => []
  | [l] => l
  | l :: l2 :: ls => l ++ m :: joinChar m (l2 :: ls)

/-- The in-memory cache of BackupFilesModel: a property bag from the string form
of a backup location to a version number, keys unique. -/
abbrev Cache := List (String × Nat)

/-- Lookup of a key in the cache (property access on the bag). -/
def cacheLookup : Cache → String → Option Nat
  | [], _ => none
  | p :: rest, k => if p.1 = k then some p.2 else cacheLookup rest k

namespace BackupFilesModel

/-- BackupFilesModel.add: insert or overwrite the entry for the key. The source
default for the version argument is 0; callers passing undefined get 0. -/
def add (c : Cache) (k : String) (versionId : Nat) : Cache :=
  (k, versionId) :: c.filter (fun p => p.1 != k)

/-- BackupFilesModel.count: number of keys in the cache. -/
def count (c : Cache) : Nat := c.length

/-- BackupFilesModel.has: false for an unknown resource; with a version given,
true only on exact match; with the version omitted, true whenever known. -/
def has (c : Cache) (k : String) (versionId : Option Nat) : Bool :=
  match cacheLookup c k with
  | none => false
  | some cachedVersionId =>
    match versionId with
    | none => true
    | some v => v == cachedVersionId

/-- BackupFilesModel.get: every known key, parsed back into a resource. -/
def get (c : Cache) : List MUri := c.map (fun p => MUri.parse p.1)

/-- BackupFilesModel.remove: delete the entry for the key. -/
def remove (c : Cache) (k : String) : Cache := c.filter (fun p => p.1 != k)

/-- BackupFilesModel.clear: empty the cache. -/
def clear : Cache := []

end BackupFilesModel

/-- path.join of two segments. -/
def joinPath (a b : String) : String := a ++ "/" ++ b

/-- The key under which a file found by the startup scan is recorded:
Uri.file(path.join(path.join(root, schema), hash)).toString(). -/
def backupHashKey (root schema h : String) : String :=
  MUri.toText (MUri.file (joinPath (joinPath root schema) h))

/-- One pass of the startup scan over the hashes of one schema directory,
adding each found file with version 0 (the source add default). -/
def addHashes (root schema : String) : Cache → List String → Cache
  | c, [] => c
  | c, h :: hs => addHashes root schema (BackupFilesModel.add c (backupHashKey root schema h) 0) hs

/-- The startup scan over the schema directories: a directory whose listing
failed contributes nothing; a directory that listed adds all its files. -/
def addDirs (root : String) : Cache → List (String × Except Unit (List String)) → Cache
  | c, [] => c
  | c, d :: ds =>
    match d.2 with
    | Except.error _ => addDirs root c ds
    | Except.ok hashes => addDirs root (addHashes root d.1 c hashes) ds

/-- The raw resolve computation before error recovery: the resulting cache and
whether any part of the scan failed (the joined promise rejects when the outer
listing or any per-directory listing rejects; adds from directories that did
list persist, since the cache is mutated in place). -/
def resolveScan (c : Cache) (root : String)
    (scan : Except Unit (List (String × Except Unit (List String)))) :
    Cache × Except Unit Unit :=
  match scan with
  | Except.error _ => (c, Except.error ())
  | Except.ok dirs =>
    (addDirs root c dirs,
     if dirs.all (fun d => d.2.isOk) then Except.ok () else Except.error ())

/-- BackupFilesModel.resolve: the scan followed by the recovery combinator
.then(() => this, error => this), which returns the model on both outcomes. -/
def BackupFilesModel.resolve (c : Cache) (root : String)
    (scan : Except Unit (List (String × Except Unit (List String)))) :
    Except Unit Cache :=
  match (resolveScan c root scan).2 with
  | Except.ok _ => Except.ok (resolveScan c root scan).1
  | Except.error _ => Except.ok (resolveScan c root scan).1

/-- State of BackupFileService: the configured backup root path, the shutdown
flag and the in-memory model. -/
structure BackupFileService where
  backupWorkspacePath : String
  isShuttingDown : Bool
  model : Cache
deriving DecidableEq, Repr

/-- backupEnabled: hot exit requires a backup path (empty string is falsy). -/
def backupEnabled (s : BackupFileService) : Bool := s.backupWorkspacePath != ""

/-- Modelled from the spec: the Resource Hasher (crypto md5 over the resource
fsPath; node crypto is not under src/) is a deterministic, side-effect-free map
from the path string to a fixed-form identifier string. -/
def hashPath (resource : MUri) : String :=
  toString (resource.fsPath.data.foldl (fun a c => (a * 131 + c.toNat) % 1000000007) 7)

/-- The backup location derived for a resource: root / scheme / hash(path). -/
def backupUri (s : BackupFileService) (resource : MUri) : MUri :=
  MUri.file (joinPath (joinPath s.backupWorkspacePath resource.scheme) (hashPath resource))

/-- getBackupResource: null when backups are disabled, else the derived
location. -/
def getBackupResource (s : BackupFileService) (resource : MUri) : Option MUri :=
  if backupEnabled s then some (backupUri s resource) else none

/-- The cache key of a resource's backup location (its string form). -/
def backupKey (s : BackupFileService) (resource : MUri) : String :=
  MUri.toText (backupUri s resource)

/-- META_MARKER: a single newline character. -/
def metaMarker : String := "\n"

/-- init: when backups are disabled the model is returned empty with no disk
access, otherwise resolve performs the scan. -/
def init (backupWorkspacePath : String)
    (scan : Except Unit (List (String × Except Unit (List String)))) :
    Except Unit Cache :=
  if backupWorkspacePath != "" then BackupFilesModel.resolve [] backupWorkspacePath scan
  else Except.ok []

/-- hasBackups: true iff the model counts more than zero entries. -/
def hasBackups (s : BackupFileService) : Bool :=
  decide (0 < BackupFilesModel.count s.model)

/-- loadBackupResource: the location, only when the model already knows it
(version-agnostic), else none. -/
def loadBackupResource (s : BackupFileService) (resource : MUri) : Option MUri :=
  match getBackupResource s resource with
  | none => none
  | some b => if BackupFilesModel.has s.model (MUri.toText b) none then some b else none

deriving instance DecidableEq for Except

/-- Outcome of one backupResource call: the service state afterwards, whether a
write was submitted to the per-key queue, the key and framed content written on
success, and the surfaced result. -/
structure BackupOutcome where
  service : BackupFileService
  submitted : Bool
  written : Option (String × String)
  result : Except Unit Unit
deriving DecidableEq, Repr

/-- backupResource: no-op while shutting down; no-op when disabled; early
return when the model already has the location at the requested version; else
frame the content with the resource string and the marker and submit the write,
adding to the model only after the write succeeds. The per-key queue passes a
failure through to the caller (spec 4.2); writeOk is the write's outcome. -/
def backupResource (s : BackupFileService) (resource : MUri) (content : String)
    (versionId : Option Nat) (writeOk : Bool) : BackupOutcome :=
  if s.isShuttingDown then ⟨s, false, none, Except.ok ()⟩
  else
    match getBackupResource s resource with
    | none => ⟨s, false, none, Except.ok ()⟩
    | some b =>
      if BackupFilesModel.has s.model (MUri.toText b) versionId then
        ⟨s, false, none, Except.ok ()⟩
      else
        if writeOk then
          ⟨{ s with model := BackupFilesModel.add s.model (MUri.toText b) (versionId.getD 0) },
           true,
           some (MUri.toText b, MUri.toText resource ++ metaMarker ++ content),
           Except.ok ()⟩
        else ⟨s, true, none, Except.error ()⟩

/-- Outcome of one discardResourceBackup call. -/
structure DiscardOutcome where
  service : BackupFileService
  deleteSubmitted : Bool
  result : Except Unit Unit
deriving DecidableEq, Repr

/-- discardResourceBackup: no-op when disabled; otherwise submits the delete to
the per-key queue unconditionally and removes the model entry only after the
delete succeeds; a failure passes through to the caller. -/
def discardResourceBackup (s : BackupFileService) (resource : MUri) (deleteOk : Bool) :
    DiscardOutcome :=
  match getBackupResource s resource with
  | none => ⟨s, false, Except.ok ()⟩
  | some b =>
    if deleteOk then
      ⟨{ s with model := BackupFilesModel.remove s.model (MUri.toText b) }, true, Except.ok ()⟩
    else ⟨s, true, Except.error ()⟩

/-- discardAllWorkspaceBackups: sets the shutdown flag first on every path;
then, when enabled, deletes the whole backup root and clears the model only on
success; a failed delete is surfaced and leaves the model. -/
def discardAllWorkspaceBackups (s : BackupFileService) (deleteOk : Bool) :
    BackupFileService × Except Unit Unit :=
  let s1 : BackupFileService := { s with isShuttingDown := true }
  if backupEnabled s1 then
    if deleteOk then ({ s1 with model := BackupFilesModel.clear }, Except.ok ())
    else (s1, Except.error ())
  else (s1, Except.ok ())

/-- The on-disk content visible to the bounded metadata read: path to content. -/
abbrev Disk := List (String × String)

/-- Lookup of a path on the disk. -/
def diskLookup : Disk → String → Option String
  | [], _ => none
  | p :: rest, k => if p.1 = k then some p.2 else diskLookup rest k

/-- Modelled from the spec: bounded-prefix-read-until-delimiter (vs/base/node/
stream readToMatchingString is not under src/): read the file's bytes up to the
first occurrence of the delimiter, failing when the file is missing or when no
delimiter occurs within maximumBytesToRead; the text before the delimiter is
returned. The chunk size only paces the read and does not affect the result. -/
def readToMatchingString (disk : Disk) (file : String) (matchingString : Char)
    (chunkBytes maximumBytesToRead : Nat) : Except Unit String :=
  match diskLookup disk file with
  | none => Except.error ()
  | some content =>
    let pre := content.data.take maximumBytesToRead
    if pre.contains matchingString then
      Except.ok (String.mk (pre.takeWhile (fun c => c != matchingString)))
    else Except.error ()

/-- Modelled from the spec: TPromise.join of the promise library
(vs/base/common/winjs.base is not under src/) completes with the list of all
values when every joined promise succeeds, and rejects when any of them
rejects, like Promise.all; successful values are not delivered on rejection. -/
def joinExcept {α : Type} : List (Except Unit α) → Except Unit (List α)
  | [] => Except.ok []
  | e :: es =>
    match e with
    | Except.error _ => Except.error ()
    | Except.ok a =>
      match joinExcept es with
      | Except.error _ => Except.error ()
      | Except.ok as => Except.ok (a :: as)

/-- The per-entry read promises built by getWorkspaceFileBackups: for every
known backup, the bounded metadata read at its path, parsed as a resource. -/
def backupReadResults (s : BackupFileService) (disk : Disk) : List (Except Unit MUri) :=
  (BackupFilesModel.get s.model).map
    (fun fileBackup =>
      Except.map MUri.parse
        (readToMatchingString disk fileBackup.fsPath '\n' 2000 10000))

/-- getWorkspaceFileBackups: the join of all per-entry reads. -/
def getWorkspaceFileBackups (s : BackupFileService) (disk : Disk) : Except Unit (List MUri) :=
  joinExcept (backupReadResults s disk)

/-- parseBackupContent: the raw text split into lines at the line ending
(modelled from the spec for TextSource.fromRawTextSource, which is not under
src/: lines are split at LF, the normalized end-of-line here), the first line
dropped, the rest rejoined with the end-of-line. -/
def parseBackupContent (raw : String) : String :=
  String.mk (joinChar '\n' ((splitOnChar '\n' raw.data).drop 1))

end VSBackup

namespace VSBackup

theorem splitOnChar_ne_nil (m : Char) (l : List Char) : splitOnChar m l ≠ [] := by
  induction l with
  | nil => simp [splitOnChar]
  | cons c cs ih =>
    by_cases hc : c = m
    · simp [splitOnChar, hc]
    · simp only [splitOnChar, if_neg hc]
      cases h : splitOnChar m cs with
      | nil => simp
      | cons l0 ls => simp

theorem joinChar_splitOnChar (m : Char) (l : List Char) : joinChar m (splitOnChar m l) = l := by
  induction l with
  | nil => rfl
  | cons c cs ih =>
    by_cases hc : c = m
    · subst hc
      rw [show splitOnChar c (c :: cs) = [] :: splitOnChar c cs from by simp [splitOnChar]]
      cases h : splitOnChar c cs with
      | nil => exact absurd h (splitOnChar_ne_nil c cs)
      | cons l0 ls =>
        rw [h] at ih
        calc joinChar c ([] :: l0 :: ls) = c :: joinChar c (l0 :: ls) := by simp [joinChar]
        _ = c :: cs := by rw [ih]
    · simp only [splitOnChar, if_neg hc]
      cases h : splitOnChar m cs with
      | nil => exact absurd h (splitOnChar_ne_nil m cs)
      | cons l0 ls =>
        rw [h] at ih
        cases ls with
        | nil =>
          simp [joinChar] at ih ⊢
          rw [ih]
        | cons l1 ls1 =>
          simp [joinChar] at ih ⊢
          exact ih

theorem splitOnChar_append_marker (m : Char) (a b : List Char) (ha : m ∉ a) :
    splitOnChar m (a ++ m :: b) = a :: splitOnChar m b := by
  induction a with
  | nil => simp [splitOnChar]
  | cons c a2 ih =>
    have hc : ¬ c = m := fun h => ha (by simp [h])
    have ha2 : m ∉ a2 := fun h => ha (List.mem_cons_of_mem c h)
    simp only [List.cons_append, splitOnChar, if_neg hc, List.append_eq]
    rw [ih ha2]

end VSBackup

namespace VSBackup

theorem cacheLookup_filter_ne (c : Cache) (k k2 : String) (h : k2 ≠ k) :
    cacheLookup (c.filter (fun p => p.1 != k)) k2 = cacheLookup c k2 := by
  induction c with
  | nil => rfl
  | cons p rest ih =>
    by_cases hp : p.1 = k
    · have h1 : ¬ p.1 = k2 := fun hh => h (hh.symm.trans hp)
      simp [cacheLookup, List.filter, hp, h1, Ne.symm h, ih]
    · have hb : (p.1 != k) = true := by simp [hp]
      simp [cacheLookup, List.filter, hb, hp, ih]

theorem cacheLookup_add (c : Cache) (k : String) (v : Nat) (k2 : String) :
    cacheLookup (BackupFilesModel.add c k v) k2 = if k2 = k then some v else cacheLookup c k2 := by
  by_cases h : k2 = k
  · subst h
    simp [BackupFilesModel.add, cacheLookup]
  · simp [BackupFilesModel.add, cacheLookup, h, Ne.symm h, cacheLookup_filter_ne c k k2 h]

theorem has_some_lookup (c : Cache) (k : String) (v : Nat)
    (h : BackupFilesModel.has c k (some v) = true) : cacheLookup c k = some v := by
  unfold BackupFilesModel.has at h
  cases hl : cacheLookup c k with
  | none => rw [hl] at h; simp at h
  | some cv =>
    rw [hl] at h
    simp at h
    rw [h]

theorem has_add_self (c : Cache) (k : String) (v : Nat) :
    BackupFilesModel.has (BackupFilesModel.add c k v) k (some v) = true := by
  unfold BackupFilesModel.has
  rw [cacheLookup_add, if_pos rfl]
  simp

theorem filter_eq_self_of_lookup_none (c : Cache) (k : String) (h : cacheLookup c k = none) :
    c.filter (fun p => p.1 != k) = c := by
  induction c with
  | nil => rfl
  | cons p rest ih =>
    unfold cacheLookup at h
    by_cases hp : p.1 = k
    · rw [if_pos hp] at h
      exact absurd h (by simp)
    · rw [if_neg hp] at h
      have hb : (p.1 != k) = true := by simp [hp]
      simp [List.filter, hb, ih h]

theorem count_pos_of_lookup_some (c : Cache) (k : String) (v : Nat)
    (h : cacheLookup c k = some v) : 0 < BackupFilesModel.count c := by
  cases c with
  | nil => simp [cacheLookup] at h
  | cons p rest => simp [BackupFilesModel.count]

theorem cacheLookup_addHashes_zero (root schema : String) (c : Cache) (hs : List String)
    (k : String) (h : cacheLookup c k = some 0) :
    cacheLookup (addHashes root schema c hs) k = some 0 := by
  induction hs generalizing c with
  | nil => exact h
  | cons h0 hs2 ih =>
    apply ih
    rw [cacheLookup_add]
    split
    · rfl
    · exact h

theorem cacheLookup_addHashes_self (root schema : String) (c : Cache) (hs : List String)
    (x : String) (hx : x ∈ hs) :
    cacheLookup (addHashes root schema c hs) (backupHashKey root schema x) = some 0 := by
  induction hs generalizing c with
  | nil => cases hx
  | cons h0 hs2 ih =>
    cases hx with
    | head =>
      show cacheLookup (addHashes root schema
        (BackupFilesModel.add c (backupHashKey root schema x) 0) hs2)
        (backupHashKey root schema x) = some 0
      apply cacheLookup_addHashes_zero
      rw [cacheLookup_add, if_pos rfl]
    | tail _ hmem => exact ih _ hmem

theorem cacheLookup_addDirs_zero (root : String) (c : Cache)
    (ds : List (String × Except Unit (List String))) (k : String)
    (h : cacheLookup c k = some 0) :
    cacheLookup (addDirs root c ds) k = some 0 := by
  induction ds generalizing c with
  | nil => exact h
  | cons d ds2 ih =>
    obtain ⟨schema, r⟩ := d
    cases r with
    | error e => exact ih _ h
    | ok hashes => exact ih _ (cacheLookup_addHashes_zero root schema c hashes k h)

theorem cacheLookup_addDirs_mem (root : String) (c : Cache)
    (ds : List (String × Except Unit (List String))) (schema : String)
    (hashes : List String) (x : String)
    (hd : (schema, Except.ok hashes) ∈ ds) (hx : x ∈ hashes) :
    cacheLookup (addDirs root c ds) (backupHashKey root schema x) = some 0 := by
  induction ds generalizing c with
  | nil => cases hd
  | cons d ds2 ih =>
    cases hd with
    | head =>
      exact cacheLookup_addDirs_zero root _ ds2 _
        (cacheLookup_addHashes_self root schema c hashes x hx)
    | tail _ hmem =>
      obtain ⟨sc, r⟩ := d
      cases r with
      | error e => exact ih _ hmem
      | ok hs2 => exact ih _ hmem

theorem joinExcept_error_of_mem {α : Type} (l : List (Except Unit α))
    (h : Except.error () ∈ l) : joinExcept l = Except.error () := by
  induction l with
  | nil => cases h
  | cons e es ih =>
    cases h with
    | head => cases hj : joinExcept es <;> simp [joinExcept, hj]
    | tail _ hmem =>
      have hj := ih hmem
      cases e <;> simp [joinExcept, hj]

theorem joinExcept_ok_of_forall {α : Type} (l : List (Except Unit α))
    (h : ∀ e ∈ l, e ≠ Except.error ()) : ∃ as, joinExcept l = Except.ok as := by
  induction l with
  | nil => exact ⟨[], rfl⟩
  | cons e es ih =>
    obtain ⟨as, has⟩ := ih (fun x hx => h x (List.mem_cons_of_mem e hx))
    cases e with
    | error u => cases u; exact absurd rfl (h _ (List.mem_cons_self _ _))
    | ok a => exact ⟨a :: as, by simp [joinExcept, has]⟩

theorem resolve_always_ok (c : Cache) (root : String)
    (scan : Except Unit (List (String × Except Unit (List String)))) :
    ∃ c2, BackupFilesModel.resolve c root scan = Except.ok c2 := by
  unfold BackupFilesModel.resolve
  cases h : (resolveScan c root scan).2 <;> exact ⟨(resolveScan c root scan).1, rfl⟩

theorem backupResource_eq (s : BackupFileService) (r : MUri) (content : String)
    (v : Option Nat) (writeOk : Bool)
    (hns : s.isShuttingDown = false) (hen : backupEnabled s = true) :
    backupResource s r content v writeOk =
      if BackupFilesModel.has s.model (backupKey s r) v then ⟨s, false, none, Except.ok ()⟩
      else if writeOk then
        ⟨{ s with model := BackupFilesModel.add s.model (backupKey s r) (v.getD 0) }, true,
         some (backupKey s r, MUri.toText r ++ metaMarker ++ content), Except.ok ()⟩
      else ⟨s, true, none, Except.error ()⟩ := by
  unfold backupResource getBackupResource
  rw [hns, hen, if_neg Bool.false_ne_true, if_pos rfl]
  rfl

theorem backupResource_shutdown (s : BackupFileService) (r : MUri) (content : String)
    (v : Option Nat) (writeOk : Bool) (hs : s.isShuttingDown = true) :
    backupResource s r content v writeOk = ⟨s, false, none, Except.ok ()⟩ := by
  unfold backupResource
  rw [hs, if_pos rfl]

end VSBackup

namespace VSBackup

/-- Concrete service for the C6 counterexample: backups enabled, empty index. -/
def c6state : BackupFileService := ⟨"root", false, []⟩

/-- Concrete service for the C5 counterexample: two known backup locations. -/
def sC5 : BackupFileService :=
  ⟨"r", false, [("file://r/file/h1", 0), ("file://r/file/h2", 0)]⟩

/-- Concrete disk for the C5 counterexample: one well-formed backup and one
truncated file with no marker within the byte cap. -/
def diskC5 : Disk :=
  [("r/file/h1", "file:///a\nhello"), ("r/file/h2", "file:///b-truncated")]

/-- Concrete service for the C10 witness: the backup location of the probed
resource is known to the index at version 5. -/
def c10state : BackupFileService :=
  ⟨"root", false, [(backupKey ⟨"root", false, []⟩ ⟨"file", "/x"⟩, 5)]⟩

/-- Claim C1: encoding frames the backup as the string form of the resource,
one newline marker, then the content; decoding the framed text through
parseBackupContent (drop the first line, rejoin the rest with the normalized
line ending) yields exactly the content back. The hypothesis that the string
form contains no raw newline holds of every real URI string form, whose
encoding escapes control characters. -/
theorem C1_metadata_codec_roundtrip (r : MUri) (content : String)
    (h : ('\n' : Char) ∉ (MUri.toText r).data) :
    parseBackupContent (MUri.toText r ++ metaMarker ++ content) = content := by
  unfold parseBackupContent
  have hdata : (MUri.toText r ++ metaMarker ++ content).data
      = (MUri.toText r).data ++ '\n' :: content.data := by
    simp [metaMarker, String.data_append,
      (show ("\n" : String).data = ['\n'] from rfl)]
  rw [hdata, splitOnChar_append_marker _ _ _ h]
  simp only [List.drop_succ_cons, List.drop_zero]
  rw [joinChar_splitOnChar]

/-- Witness for C1 at a concrete resource and a content containing a newline. -/
theorem C1_metadata_codec_roundtrip_witness :
    (('\n' : Char) ∉ (MUri.toText ⟨"file", "/a/b"⟩).data) ∧
    parseBackupContent (MUri.toText ⟨"file", "/a/b"⟩ ++ metaMarker ++ "x\ny") = "x\ny" :=
  ⟨by decide, C1_metadata_codec_roundtrip ⟨"file", "/a/b"⟩ "x\ny" (by decide)⟩

/-- Claim C2: when the call reaches the queued write (not shutting down,
enabled, version check did not skip) and the write fails, the error is
surfaced to the caller and the index is left exactly in its pre-operation
state, so a retry with the same versionId is not skipped. -/
theorem C2_write_failure_preserves_index (s : BackupFileService) (r : MUri)
    (content : String) (v : Option Nat)
    (hns : s.isShuttingDown = false) (hen : backupEnabled s = true)
    (hnh : BackupFilesModel.has s.model (backupKey s r) v = false) :
    backupResource s r content v false = ⟨s, true, none, Except.error ()⟩ ∧
    BackupFilesModel.has (backupResource s r content v false).service.model
      (backupKey s r) v = false := by
  have hmain := backupResource_eq s r content v false hns hen
  rw [hnh] at hmain
  simp only [Bool.false_eq_true, if_false] at hmain
  exact ⟨hmain, by rw [hmain]; exact hnh⟩

/-- Witness for C2 at a concrete enabled service with an empty index. -/
theorem C2_write_failure_preserves_index_witness :
    (⟨"root", false, []⟩ : BackupFileService).isShuttingDown = false ∧
    backupEnabled ⟨"root", false, []⟩ = true ∧
    BackupFilesModel.has (⟨"root", false, []⟩ : BackupFileService).model
      (backupKey ⟨"root", false, []⟩ ⟨"file", "/x"⟩) (some 1) = false ∧
    backupResource ⟨"root", false, []⟩ ⟨"file", "/x"⟩ "hello" (some 1) false =
      ⟨⟨"root", false, []⟩, true, none, Except.error ()⟩ :=
  ⟨rfl, by decide, by decide,
   (C2_write_failure_preserves_index ⟨"root", false, []⟩ ⟨"file", "/x"⟩ "hello" (some 1)
     rfl (by decide) (by decide)).1⟩

/-- Claim C3: after a first successful backupResource call at version v, the
index holds the backup location at exactly v, and a second call with the same
v is a no-op on disk (nothing submitted, nothing written) and on the index. -/
theorem C3_same_version_idempotent (s : BackupFileService) (r : MUri)
    (content content2 : String) (v : Nat) (w2 : Bool)
    (hns : s.isShuttingDown = false) (hen : backupEnabled s = true) :
    (backupResource s r content (some v) true).result = Except.ok () ∧
    cacheLookup (backupResource s r content (some v) true).service.model
      (backupKey s r) = some v ∧
    backupResource (backupResource s r content (some v) true).service r content2 (some v) w2 =
      ⟨(backupResource s r content (some v) true).service, false, none, Except.ok ()⟩ := by
  have h1 := backupResource_eq s r content (some v) true hns hen
  cases hhas : BackupFilesModel.has s.model (backupKey s r) (some v) with
  | true =>
    rw [hhas] at h1
    simp only [if_pos rfl] at h1
    rw [h1]
    refine ⟨rfl, has_some_lookup _ _ _ hhas, ?_⟩
    have h2 := backupResource_eq s r content2 (some v) w2 hns hen
    rw [hhas] at h2
    simp only [if_pos rfl] at h2
    exact h2
  | false =>
    rw [hhas] at h1
    simp only [Bool.false_eq_true, if_false, if_pos rfl, Option.getD_some] at h1
    rw [h1]
    refine ⟨rfl, ?_, ?_⟩
    · show cacheLookup (BackupFilesModel.add s.model (backupKey s r) v) (backupKey s r) = some v
      rw [cacheLookup_add, if_pos rfl]
    · have hns2 : ({ s with model := BackupFilesModel.add s.model (backupKey s r) v } :
        BackupFileService).isShuttingDown = false := hns
      have hen2 : backupEnabled { s with model := BackupFilesModel.add s.model (backupKey s r) v } = true := hen
      have h2 := backupResource_eq
        { s with model := BackupFilesModel.add s.model (backupKey s r) v } r content2 (some v) w2 hns2 hen2
      have hh : BackupFilesModel.has
          (BackupFilesModel.add s.model (backupKey s r) v) (backupKey s r) (some v) = true :=
        has_add_self s.model (backupKey s r) v
      rw [show backupKey { s with model := BackupFilesModel.add s.model (backupKey s r) v } r
          = backupKey s r from rfl] at h2
      rw [hh] at h2
      simp only [if_pos rfl] at h2
      exact h2

/-- Witness for C3 at a concrete enabled service with an empty index. -/
theorem C3_same_version_idempotent_witness :
    (⟨"root", false, []⟩ : BackupFileService).isShuttingDown = false ∧
    backupEnabled ⟨"root", false, []⟩ = true ∧
    backupResource (backupResource ⟨"root", false, []⟩ ⟨"file", "/x"⟩ "hello" (some 1) true).service
        ⟨"file", "/x"⟩ "hello2" (some 1) true =
      ⟨(backupResource ⟨"root", false, []⟩ ⟨"file", "/x"⟩ "hello" (some 1) true).service,
       false, none, Except.ok ()⟩ :=
  ⟨rfl, by decide,
   (C3_same_version_idempotent ⟨"root", false, []⟩ ⟨"file", "/x"⟩ "hello" "hello2" 1 true
     rfl (by decide)).2.2⟩

/-- Claim C4: discardAllWorkspaceBackups leaves the shutdown flag set on every
outcome (before and regardless of the asynchronous delete step), and any
backupResource call issued against the resulting state performs no write and
no index mutation and returns successfully. -/
theorem C4_shutdown_suppresses_backups (s : BackupFileService) (deleteOk : Bool)
    (r : MUri) (content : String) (v : Option Nat) (writeOk : Bool) :
    (discardAllWorkspaceBackups s deleteOk).1.isShuttingDown = true ∧
    backupResource (discardAllWorkspaceBackups s deleteOk).1 r content v writeOk =
      ⟨(discardAllWorkspaceBackups s deleteOk).1, false, none, Except.ok ()⟩ := by
  have hflag : (discardAllWorkspaceBackups s deleteOk).1.isShuttingDown = true := by
    unfold discardAllWorkspaceBackups
    cases hbe : backupEnabled { s with isShuttingDown := true } <;>
      cases deleteOk <;> simp [hbe]
  exact ⟨hflag, backupResource_shutdown _ r content v writeOk hflag⟩

/-- Claim C5, counterexample: an index with one well-formed backup (metadata
read succeeds) and one truncated backup (no marker within the cap) makes the
whole getWorkspaceFileBackups call fail; the successfully parsed entry is not
returned, contradicting per-entry error reporting. -/
theorem C5_counterexample :
    readToMatchingString diskC5 "r/file/h1" '\n' 2000 10000 = Except.ok "file:///a" ∧
    readToMatchingString diskC5 "r/file/h2" '\n' 2000 10000 = Except.error () ∧
    getWorkspaceFileBackups sC5 diskC5 = Except.error () := by
  refine ⟨by decide, by decide, by decide⟩

/-- Claim C5 as amended: a malformed entry makes the joined promise, and hence
the whole listBackups call, fail with an error; the successfully parsed
entries are not returned. Only when every entry's metadata read succeeds does
the call return the full list. -/
theorem C5_malformed_entry_aborts_call (s : BackupFileService) (disk : Disk) :
    (Except.error () ∈ backupReadResults s disk →
      getWorkspaceFileBackups s disk = Except.error ()) ∧
    ((∀ e ∈ backupReadResults s disk, e ≠ Except.error ()) →
      ∃ us, getWorkspaceFileBackups s disk = Except.ok us) :=
  ⟨fun h => joinExcept_error_of_mem _ h, fun h => joinExcept_ok_of_forall _ h⟩

/-- Witness for the amended C5 at the concrete two-entry state. -/
theorem C5_malformed_entry_aborts_call_witness :
    Except.error () ∈ backupReadResults sC5 diskC5 ∧
    getWorkspaceFileBackups sC5 diskC5 = Except.error () :=
  ⟨by decide, (C5_malformed_entry_aborts_call sC5 diskC5).1 (by decide)⟩

/-- Claim C6, counterexample: with backups enabled and the location unknown to
the index, discardResourceBackup still submits a delete, contradicting the
claimed no-op. -/
theorem C6_counterexample :
    BackupFilesModel.has c6state.model (backupKey c6state ⟨"file", "/x"⟩) none = false ∧
    (discardResourceBackup c6state ⟨"file", "/x"⟩ true).deleteSubmitted = true := by
  refine ⟨by decide, by decide⟩

/-- Claim C6 as amended: when backups are disabled discardResourceBackup is a
no-op; when enabled the delete is submitted unconditionally, even for a
location unknown to the index, but the index is left unchanged in the unknown
case because removing an absent key has no effect. -/
theorem C6_discard_unknown_submits_delete (s : BackupFileService) (r : MUri) (deleteOk : Bool) :
    (backupEnabled s = false → discardResourceBackup s r deleteOk = ⟨s, false, Except.ok ()⟩) ∧
    (backupEnabled s = true → (discardResourceBackup s r deleteOk).deleteSubmitted = true) ∧
    (cacheLookup s.model (backupKey s r) = none →
      (discardResourceBackup s r deleteOk).service.model = s.model) := by
  refine ⟨?_, ?_, ?_⟩
  · intro hdis
    unfold discardResourceBackup getBackupResource
    rw [hdis, if_neg Bool.false_ne_true]
  · intro hen
    unfold discardResourceBackup getBackupResource
    rw [hen, if_pos rfl]
    cases deleteOk <;> rfl
  · intro hnone
    unfold discardResourceBackup getBackupResource
    cases hbe : backupEnabled s with
    | false => rw [if_neg Bool.false_ne_true]
    | true =>
      rw [if_pos rfl]
      cases deleteOk with
      | false => rfl
      | true =>
        show BackupFilesModel.remove s.model (backupKey s r) = s.model
        exact filter_eq_self_of_lookup_none s.model (backupKey s r) hnone

/-- Witness for the amended C6 at the concrete enabled service with an empty
index. -/
theorem C6_discard_unknown_submits_delete_witness :
    backupEnabled c6state = true ∧
    cacheLookup c6state.model (backupKey c6state ⟨"file", "/x"⟩) = none ∧
    (discardResourceBackup c6state ⟨"file", "/x"⟩ true).deleteSubmitted = true ∧
    (discardResourceBackup c6state ⟨"file", "/x"⟩ true).service.model = c6state.model :=
  ⟨by decide, by decide,
   (C6_discard_unknown_submits_delete c6state ⟨"file", "/x"⟩ true).2.1 (by decide),
   (C6_discard_unknown_submits_delete c6state ⟨"file", "/x"⟩ true).2.2 (by decide)⟩

/-- Claim C7: a startup scan that finds stored backup files (one subdirectory
per scheme, one file per backup) records each found file at version 0;
afterwards the location is known version-agnostically, the version check
matches exactly 0, and hasBackups is true. -/
theorem C7_restart_scan_records_version_zero (root : String)
    (dirs : List (String × Except Unit (List String)))
    (schema : String) (hashes : List String) (x : String) (v : Nat)
    (hd : (schema, Except.ok hashes) ∈ dirs) (hx : x ∈ hashes) :
    BackupFilesModel.resolve [] root (Except.ok dirs) = Except.ok (addDirs root [] dirs) ∧
    cacheLookup (addDirs root [] dirs) (backupHashKey root schema x) = some 0 ∧
    BackupFilesModel.has (addDirs root [] dirs) (backupHashKey root schema x) none = true ∧
    BackupFilesModel.has (addDirs root [] dirs) (backupHashKey root schema x) (some v) = (v == 0) ∧
    hasBackups ⟨root, false, addDirs root [] dirs⟩ = true := by
  have hlk := cacheLookup_addDirs_mem root [] dirs schema hashes x hd hx
  refine ⟨?_, hlk, ?_, ?_, ?_⟩
  · unfold BackupFilesModel.resolve resolveScan
    cases hall : dirs.all (fun d => d.2.isOk) <;> simp [hall]
  · unfold BackupFilesModel.has
    rw [hlk]
  · unfold BackupFilesModel.has
    rw [hlk]
  · exact decide_eq_true (count_pos_of_lookup_some _ _ _ hlk)

/-- Witness for C7 at a one-scheme, one-file scan. -/
theorem C7_restart_scan_records_version_zero_witness :
    ((("file", Except.ok ["h1"]) : String × Except Unit (List String)) ∈
      ([("file", Except.ok ["h1"])] : List (String × Except Unit (List String)))) ∧
    ("h1" ∈ ["h1"]) ∧
    cacheLookup (addDirs "r" [] [("file", Except.ok ["h1"])]) (backupHashKey "r" "file" "h1") = some 0 ∧
    hasBackups ⟨"r", false, addDirs "r" [] [("file", Except.ok ["h1"])]⟩ = true :=
  ⟨by decide, by decide,
   (C7_restart_scan_records_version_zero "r" [("file", Except.ok ["h1"])] "file" ["h1"] "h1" 0
     (by decide) (by decide)).2.1,
   (C7_restart_scan_records_version_zero "r" [("file", Except.ok ["h1"])] "file" ["h1"] "h1" 0
     (by decide) (by decide)).2.2.2.2⟩

/-- Claim C8: resolve never propagates a scan failure: it completes with an
Except.ok cache for every scan outcome, a fully failed scan yields the
pre-existing (empty at startup) cache, and initialization always succeeds. -/
theorem C8_scan_failure_tolerated (c : Cache) (root : String)
    (scan : Except Unit (List (String × Except Unit (List String)))) :
    (∃ c2, BackupFilesModel.resolve c root scan = Except.ok c2) ∧
    BackupFilesModel.resolve c root (Except.error ()) = Except.ok c ∧
    (∃ c3, init root scan = Except.ok c3) := by
  refine ⟨resolve_always_ok c root scan, rfl, ?_⟩
  unfold init
  cases hroot : root != "" with
  | false => exact ⟨[], by rw [if_neg Bool.false_ne_true]⟩
  | true =>
    obtain ⟨c3, hc3⟩ := resolve_always_ok [] root scan
    exact ⟨c3, by rw [if_pos rfl]; exact hc3⟩

/-- Claim C9: when enabled, the computed backup location is the configured
root joined with the resource scheme joined with the hash of the resource
path, and the mapping is deterministic: any state with the same root maps the
same resource to the same location. -/
theorem C9_backup_location_deterministic (s : BackupFileService) (r : MUri)
    (hen : backupEnabled s = true) :
    getBackupResource s r =
      some (MUri.file (joinPath (joinPath s.backupWorkspacePath r.scheme) (hashPath r))) ∧
    (∀ s2 : BackupFileService, s2.backupWorkspacePath = s.backupWorkspacePath →
      getBackupResource s2 r = getBackupResource s r) := by
  constructor
  · unfold getBackupResource
    rw [hen, if_pos rfl]
    rfl
  · intro s2 h2
    unfold getBackupResource backupEnabled backupUri
    rw [h2]

/-- Witness for C9 at a concrete root and resource. -/
theorem C9_backup_location_deterministic_witness :
    backupEnabled ⟨"root", false, []⟩ = true ∧
    getBackupResource ⟨"root", false, []⟩ ⟨"file", "/x"⟩ =
      some (MUri.file (joinPath (joinPath "root" "file") (hashPath ⟨"file", "/x"⟩))) :=
  ⟨by decide, (C9_backup_location_deterministic ⟨"root", false, []⟩ ⟨"file", "/x"⟩ (by decide)).1⟩

/-- Claim C10: when the location is already present in the index at any stored
version and the versionId argument is omitted, backupResource skips
unconditionally: no write is submitted, the state is unchanged and the call
returns successfully, whatever the stored version is. -/
theorem C10_omitted_version_skips_unconditionally (s : BackupFileService) (r : MUri)
    (content : String) (w : Nat) (writeOk : Bool)
    (hns : s.isShuttingDown = false) (hen : backupEnabled s = true)
    (hk : cacheLookup s.model (backupKey s r) = some w) :
    backupResource s r content none writeOk = ⟨s, false, none, Except.ok ()⟩ := by
  have h1 := backupResource_eq s r content none writeOk hns hen
  have hh : BackupFilesModel.has s.model (backupKey s r) none = true := by
    unfold BackupFilesModel.has
    rw [hk]
  rw [hh] at h1
  simp only [if_pos rfl] at h1
  exact h1

/-- Witness for C10 at a concrete service whose index holds the location at
version 5 while no version is supplied. -/
theorem C10_omitted_version_skips_unconditionally_witness :
    c10state.isShuttingDown = false ∧
    backupEnabled c10state = true ∧
    cacheLookup c10state.model (backupKey c10state ⟨"file", "/x"⟩) = some 5 ∧
    backupResource c10state ⟨"file", "/x"⟩ "new content" none true =
      ⟨c10state, false, none, Except.ok ()⟩ :=
  ⟨rfl, by decide, by decide,
   C10_omitted_version_skips_unconditionally c10state ⟨"file", "/x"⟩ "new content" 5 true
     rfl (by decide) (by decide)⟩

end VSBackup
